import Mathlib

/-!
Verification of the sudoku solver in `sudoku_grid.py`.

The grid is a `Sudoku` object: `cells` maps a 1-indexed coordinate pair to
the set of still-possible digits for that cell, `peers` maps a coordinate to
the cells sharing a row, column or block with it, `keys` records the
dictionary's key order (row-major insertion order), and `n` is the block
size (a 9 x 9 grid has n = 3).

Python's `False` failure sentinel is modelled as `none : Option Sudoku`.
The recursive constraint propagation of `eliminate` has no structural
termination measure, so the embedding threads an explicit fuel argument;
running out of fuel yields `none`.  All theorems below either quantify over
the fuel or use a `fuel + 1` pattern, so no fuel-sufficiency assumption is
ever needed.

`assign` in the source calls `grid.copy()` at line 110 *before* its
`if grid == False` guard at line 118; on the Python value `False` that call
raises `AttributeError`.  The `PyOut` layer records this: `PyOut.exn` is an
uncaught exception, `PyOut.ok v` a normally returned value.
-/

/-- Cell coordinate: a 1-indexed (row, column) pair. -/
abbrev Cell := ℕ × ℕ

/-- The Sudoku grid object of `sudoku_grid.py` (fields documented in the
module docstring of the source): candidate sets per cell, peer topology,
dictionary key order, block size. -/
structure Sudoku where
  cells : Cell → Finset ℕ
  peers : Cell → List Cell
  keys : List Cell
  n : ℕ

/-- Python `grid.copy()` at the value level: in the functional model a copy
is the same value.  The object-level behaviour (a fresh cells dictionary at
a fresh address) is modelled separately by the store semantics below. -/
def Sudoku.copy (g : Sudoku) : Sudoku := g

/-- Python `list(new_digits)[0]` on a one-element set: the unique element
(for a singleton the join over the set is that element). -/
def theElem (s : Finset ℕ) : ℕ := s.sup id

/-- Ascending enumeration of a finite set of naturals: the iteration order
of a small-integer Python set.  (Stated by filtering a range so that it
reduces inside the kernel.) -/
def setAsc (s : Finset ℕ) : List ℕ :=
  (List.range (s.sup id + 1)).filter fun d => decide (d ∈ s)

/-- Total number of remaining candidates, summed over the dictionary keys;
`totalCount g + 1` is enough fuel for any single propagation run. -/
def totalCount (g : Sudoku) : ℕ := (g.keys.map fun c => (g.cells c).card).sum

/-- Embedding of `eliminate(grid, cell, digit)` (src/sudoku_grid.py lines
127-156).  `none` is the Python `False`; a `False` input is returned
unchanged (line 135).  If `digit` is not a candidate the grid is returned
unchanged (line 141); otherwise `digit` is removed, an emptied cell aborts
with `False` (line 148), and a cell reduced to a single candidate has that
candidate eliminated from every peer in turn (lines 151-154), the
possibly-`False` grid being rebound at each iteration — which `List.foldl`
expresses (a mid-loop `False` is threaded through the remaining iterations,
where `eliminate` returns it unchanged). -/
def eliminateF : ℕ → Option Sudoku → Cell → ℕ → Option Sudoku
  | 0, _, _, _ => none
  | _ + 1, none, _, _ => none
  | fuel + 1, some g, cell, digit =>
    let possible := g.cells cell
    if digit ∉ possible then some g
    else
      let newDigits := possible.erase digit
      let g1 : Sudoku := { g with cells := Function.update g.cells cell newDigits }
      if newDigits.card = 0 then none
      else if newDigits.card = 1 then
        (g.peers cell).foldl (fun og p => eliminateF fuel og p (theElem newDigits)) (some g1)
      else some g1

/-- The loop of `assign` (lines 121-122): eliminate each digit of
`other_values` from `cell`, threading the possibly-`False` grid through. -/
def assignLoopF (fuel : ℕ) (og : Option Sudoku) (cell : Cell) (ds : List ℕ) : Option Sudoku :=
  ds.foldl (fun og d => eliminateF fuel og cell d) og

/-- Embedding of `assign(grid, cell, digit)` on a real (non-`False`) grid
(src/sudoku_grid.py lines 102-124): copy the grid, compute
`other_values = cur_digits - {digit}`, and eliminate each of them from
`cell`.  Python iterates the set `other_values`; the model fixes ascending
order.  The dead `if grid == False` check at line 118 never fires on this
path (the copy of a real grid is a real grid); the `False`-input path is
`assignPy` below. -/
def assign (fuel : ℕ) (g : Sudoku) (cell : Cell) (digit : ℕ) : Option Sudoku :=
  let g1 := g.copy
  let curDigits := g1.cells cell
  let otherValues := curDigits \ {digit}
  assignLoopF fuel (some g1) cell (setAsc otherValues)

/-- Outcome of running a Python call: a value, or an uncaught exception. -/
inductive PyOut where
  | ok : Option Sudoku → PyOut
  | exn : PyOut

/-- Embedding of `assign` including its behaviour on the `False` sentinel:
line 110 executes `grid.copy()` before the `grid == False` guard at line
118, and `False.copy()` raises `AttributeError`, so a `False` input raises
instead of returning `False`. -/
def assignPy (fuel : ℕ) : Option Sudoku → Cell → ℕ → PyOut
  | none, _, _ => PyOut.exn
  | some g, cell, digit => PyOut.ok (assign fuel g cell digit)

/-- Embedding of `solved(grid)` (lines 196-201): every cell's candidate set
is a singleton. -/
def solved (g : Sudoku) : Bool := g.keys.all fun c => (g.cells c).card == 1

mutual

/-- Embedding of `solve_sudoku(grid, next_cell, order_choices)` (lines
66-96), parameterised by the selection strategy `nc` and the value-ordering
strategy `oc`.  A `False` grid is returned at once (line 79); a solved grid
is returned as the answer (line 83); otherwise each ordered choice is
assigned and the first non-`False` recursive outcome is returned.  The
inner `assign` runs with its own sufficient fuel `totalCount g + 1`. -/
def solve_sudoku (nc : Sudoku → Cell) (oc : Sudoku → Cell → List ℕ) :
    ℕ → Option Sudoku → Option Sudoku
  | _, none => none
  | 0, some _ => none
  | fuel + 1, some g =>
    if solved g then some g
    else tryChoicesF nc oc fuel g (nc g) (oc g (nc g))
termination_by fuel _ => (fuel, 0)

/-- The choice loop of `solve_sudoku` (lines 90-96): return the first
recursive outcome that is not `False`; `False` if every choice fails. -/
def tryChoicesF (nc : Sudoku → Cell) (oc : Sudoku → Cell → List ℕ) :
    ℕ → Sudoku → Cell → List ℕ → Option Sudoku
  | _, _, _, [] => none
  | fuel, g, idx, v :: vs =>
    match solve_sudoku nc oc fuel (assign (totalCount g + 1) g idx v) with
    | some outcome => some outcome
    | none => tryChoicesF nc oc fuel g idx vs
termination_by fuel _ _ vs => (fuel, vs.length + 1)

end

/-- Embedding of `most_constrained(grid)` (lines 22-29): among keys with
more than one candidate, the first whose count equals the minimum count
(`count_list.index(min(count_list))`).  The `ValueError` that `min` raises
on an empty sequence is modelled as `none`. -/
def most_constrained (g : Sudoku) : Option Cell :=
  let keyList := g.keys.filter fun k => 1 < (g.cells k).card
  match (keyList.map fun k => (g.cells k).card).min? with
  | none => none
  | some m => keyList.find? fun k => (g.cells k).card == m

/-- Embedding of `least_constrained(grid)` (lines 32-39): the first key with
more than one candidate whose count equals the maximum count. -/
def least_constrained (g : Sudoku) : Option Cell :=
  let keyList := g.keys.filter fun k => 1 < (g.cells k).card
  match (keyList.map fun k => (g.cells k).card).max? with
  | none => none
  | some m => keyList.find? fun k => (g.cells k).card == m

/-- Row-major list of the n² × n² cell coordinates, 1-indexed. -/
def gridKeys (n : ℕ) : List Cell :=
  (List.range (n ^ 2)).flatMap fun r => (List.range (n ^ 2)).map fun c => (r + 1, c + 1)

/-- Block index of a cell: which n × n block it lies in. -/
def blockOf (n : ℕ) (c : Cell) : ℕ × ℕ := ((c.1 - 1) / n, (c.2 - 1) / n)

/-- Two distinct cells are peers when they share a row, a column or a block. -/
def isPeer (n : ℕ) (a b : Cell) : Bool :=
  a ≠ b && (a.1 == b.1 || a.2 == b.2 || blockOf n a == blockOf n b)

/-- Modelled from the spec: `empty_grid` lives in `sudoku_grid_util`, which
is not part of the sources; per spec §4.1, `makeEmptyGrid(n)` returns a grid
where every one of the n⁴ cells holds all digits 1..n² as candidates and
`peers` maps each cell to the union of its row-mates, column-mates and
block-mates minus itself. -/
def empty_grid (n : ℕ) : Sudoku :=
  { cells := fun _ => Finset.Icc 1 (n ^ 2)
    peers := fun c => (gridKeys n).filter fun p => isPeer n c p
    keys := gridKeys n
    n := n }

/-- The prefilled cells of a read-in grid, in row-major order with 1-indexed
coordinates, as produced by the double `enumerate(..., 1)` loop of
`parse_grid` (lines 216-219). -/
def prefilledCells (rows : List (List (Option ℕ))) : List (Cell × ℕ) :=
  rows.enum.flatMap fun rc =>
    rc.2.enum.filterMap fun cv =>
      cv.2.map fun d => (((rc.1 + 1, cv.1 + 1) : Cell), d)

/-- Embedding of `parse_grid(grid_rows)` (lines 203-224): build the empty
grid of side `sqrt(len(grid_rows))` (the failed `assert` at line 212 is the
exception outcome) and call `assign` for every prefilled cell in row-major
order, threading the result — including the uncaught `AttributeError` that
`assign` raises when handed the `False` produced by an earlier conflicting
assignment.  Each `assign` call runs with sufficient fuel for the grids that
can arise (candidate counts only shrink below the empty grid's total). -/
def parse_grid (rows : List (List (Option ℕ))) : PyOut :=
  let n := rows.length.sqrt
  if n ^ 2 ≠ rows.length then PyOut.exn
  else
    let fuel := totalCount (empty_grid n) + 1
    (prefilledCells rows).foldl
      (fun st cd =>
        match st with
        | PyOut.exn => PyOut.exn
        | PyOut.ok og => assignPy fuel og cd.1 cd.2)
      (PyOut.ok (some (empty_grid n)))

/-- Heap of grid objects for the object-level (mutation) semantics: `mem a`
is the contents of the cells dictionary stored at address `a`, and `next`
is the next fresh address.  The peer topology is shared and read-only, so
it is a parameter rather than part of the store. -/
structure Store where
  next : ℕ
  mem : ℕ → Cell → Finset ℕ

/-- Write one entry of the cells dictionary stored at address `a`
(`grid.cells[cell] = new_digits`, line 146 of the source). -/
def writeCell (σ : Store) (a : ℕ) (cell : Cell) (s : Finset ℕ) : Store :=
  { σ with mem := Function.update σ.mem a (Function.update (σ.mem a) cell s) }

/-- Object-level embedding of `eliminate` (lines 127-156) over the store:
the same control flow as `eliminateF`, but the assignment
`grid.cells[cell] = new_digits` writes through the grid object's address,
so the mutation persists even on the paths that return `False` — the
destructive behaviour the docstring of `eliminate` announces.  The peer
loop threads the store and the possibly-`False` grid reference. -/
def eliminateS (ps : Cell → List Cell) :
    ℕ → Store × Option ℕ → Cell → ℕ → Store × Option ℕ
  | 0, r, _, _ => (r.1, none)
  | _ + 1, (σ, none), _, _ => (σ, none)
  | fuel + 1, (σ, some a), cell, digit =>
    let possible := σ.mem a cell
    if digit ∉ possible then (σ, some a)
    else
      let newDigits := possible.erase digit
      let σ1 := writeCell σ a cell newDigits
      if newDigits.card = 0 then (σ1, none)
      else if newDigits.card = 1 then
        (ps cell).foldl (fun r p => eliminateS ps fuel r p (theElem newDigits)) (σ1, some a)
      else (σ1, some a)

/-- The loop of `assign` at the object level: eliminate each value from
`cell` in the grid object being built, threading store and reference. -/
def assignLoopS (ps : Cell → List Cell) (fuel : ℕ) (r : Store × Option ℕ)
    (cell : Cell) (ds : List ℕ) : Store × Option ℕ :=
  ds.foldl (fun r d => eliminateS ps fuel r cell d) r

/-- Object-level embedding of `assign(grid, cell, digit)` (lines 102-124)
applied to the grid object at address `a`.  Modelled from the spec for the
copy step only: `Sudoku.copy` lives in `sudoku_grid_util`, which is not
part of the sources; per spec §3 and §5 (grids are copy-on-write values and
`assign` conceptually returns a new grid) the copy allocates a fresh grid
object at the fresh address `σ.next` holding the same cell contents.  Every
subsequent elimination writes through the fresh address only. -/
def assignS (ps : Cell → List Cell) (fuel : ℕ) (σ : Store) (a : ℕ)
    (cell : Cell) (digit : ℕ) : Store × Option ℕ :=
  let b := σ.next
  let σ1 : Store := { next := σ.next + 1, mem := Function.update σ.mem b (σ.mem a) }
  let curDigits := σ1.mem b cell
  let otherValues := curDigits \ {digit}
  assignLoopS ps fuel (σ1, some b) cell (setAsc otherValues)

/-- Every cell of the grid holds a non-empty candidate set (the validity
invariant of spec §3). -/
def allNonempty (g : Sudoku) : Prop := ∀ c, (g.cells c).Nonempty

/-- Every candidate everywhere lies in the digit range [1, n²]. -/
def inRange (g : Sudoku) : Prop := ∀ c, g.cells c ⊆ Finset.Icc 1 (g.n ^ 2)

theorem setAsc_mem (s : Finset ℕ) (a : ℕ) : a ∈ setAsc s ↔ a ∈ s := by
  simp only [setAsc, List.mem_filter, List.mem_range, decide_eq_true_eq, Nat.lt_succ_iff]
  exact ⟨fun h => h.2, fun h => ⟨Finset.le_sup (f := id) h, h⟩⟩

theorem eliminateF_none (fuel : ℕ) (c : Cell) (d : ℕ) : eliminateF fuel none c d = none := by
  cases fuel <;> rfl

theorem elimFold_none (fuel : ℕ) (v : ℕ) (ps : List Cell) :
    ps.foldl (fun og p => eliminateF fuel og p v) none = none := by
  induction ps with
  | nil => rfl
  | cons p ps ih => simpa [eliminateF_none] using ih

theorem assignLoopF_none (fuel : ℕ) (cell : Cell) (ds : List ℕ) :
    assignLoopF fuel none cell ds = none := by
  induction ds with
  | nil => rfl
  | cons d ds ih => simpa [assignLoopF, eliminateF_none] using ih

/-- One update step of `eliminate` only shrinks candidate sets. -/
theorem update_erase_subset (g : Sudoku) (cell : Cell) (digit : ℕ) (x : Cell) :
    Function.update g.cells cell ((g.cells cell).erase digit) x ⊆ g.cells x := by
  rcases eq_or_ne x cell with rfl | hx
  · rw [Function.update_same]; exact Finset.erase_subset _ _
  · rw [Function.update_noteq hx]

theorem elimFold_mono (fuel : ℕ)
    (hIH : ∀ g c d g', eliminateF fuel (some g) c d = some g' →
      ∀ x, g'.cells x ⊆ g.cells x) :
    ∀ (ps : List Cell) (g : Sudoku) (v : ℕ) (g' : Sudoku),
      ps.foldl (fun og p => eliminateF fuel og p v) (some g) = some g' →
      ∀ x, g'.cells x ⊆ g.cells x := by
  intro ps
  induction ps with
  | nil => intro g v g' h x; cases h; exact Finset.Subset.refl _
  | cons p ps ih =>
    intro g v g' h x
    rcases h1 : eliminateF fuel (some g) p v with _ | g1
    · rw [List.foldl_cons, h1, elimFold_none] at h; cases h
    · rw [List.foldl_cons, h1] at h
      exact (ih g1 v g' h x).trans (hIH g p v g1 h1 x)

/-- Monotonicity of `eliminate`: a returned grid's candidate sets are
pointwise included in the input grid's. -/
theorem eliminateF_mono :
    ∀ (fuel : ℕ) (g : Sudoku) (c : Cell) (d : ℕ) (g' : Sudoku),
      eliminateF fuel (some g) c d = some g' → ∀ x, g'.cells x ⊆ g.cells x := by
  intro fuel
  induction fuel with
  | zero => intro g c d g' h; cases h
  | succ fuel ih =>
    intro g c d g' h x
    rw [eliminateF] at h
    by_cases hmem : d ∈ g.cells c
    · simp only [hmem, not_true_eq_false, if_false] at h
      by_cases h0 : ((g.cells c).erase d).card = 0
      · simp only [h0, if_true] at h; cases h
      · simp only [h0, if_false] at h
        by_cases h1 : ((g.cells c).erase d).card = 1
        · simp only [h1, if_true] at h
          exact (elimFold_mono fuel ih _ _ _ _ h x).trans (update_erase_subset g c d x)
        · simp only [h1, if_false] at h
          cases h
          exact update_erase_subset g c d x
    · simp only [hmem, not_false_eq_true, if_true] at h
      cases h
      exact Finset.Subset.refl _

theorem elimFold_nonempty (fuel : ℕ)
    (hIH : ∀ g c d g', allNonempty g → eliminateF fuel (some g) c d = some g' →
      allNonempty g') :
    ∀ (ps : List Cell) (g : Sudoku) (v : ℕ) (g' : Sudoku), allNonempty g →
      ps.foldl (fun og p => eliminateF fuel og p v) (some g) = some g' →
      allNonempty g' := by
  intro ps
  induction ps with
  | nil => intro g v g' hg h; cases h; exact hg
  | cons p ps ih =>
    intro g v g' hg h
    rcases h1 : eliminateF fuel (some g) p v with _ | g1
    · rw [List.foldl_cons, h1, elimFold_none] at h; cases h
    · rw [List.foldl_cons, h1] at h
      exact ih g1 v g' (hIH g p v g1 hg h1) h

/-- A grid returned by `eliminate` from a valid grid is valid: the emptied
cell cases all return `False` instead. -/
theorem eliminateF_nonempty :
    ∀ (fuel : ℕ) (g : Sudoku) (c : Cell) (d : ℕ) (g' : Sudoku), allNonempty g →
      eliminateF fuel (some g) c d = some g' → allNonempty g' := by
  intro fuel
  induction fuel with
  | zero => intro g c d g' _ h; cases h
  | succ fuel ih =>
    intro g c d g' hg h
    rw [eliminateF] at h
    by_cases hmem : d ∈ g.cells c
    · simp only [hmem, not_true_eq_false, if_false] at h
      by_cases h0 : ((g.cells c).erase d).card = 0
      · simp only [h0, if_true] at h; cases h
      · simp only [h0, if_false] at h
        have hg1 : allNonempty
            { g with cells := Function.update g.cells c ((g.cells c).erase d) } := by
          intro x
          rcases eq_or_ne x c with rfl | hx
          · simpa [Function.update_same] using
              Finset.card_pos.mp (Nat.pos_of_ne_zero h0)
          · simpa [Function.update_noteq hx] using hg x
        by_cases h1 : ((g.cells c).erase d).card = 1
        · simp only [h1, if_true] at h
          exact elimFold_nonempty fuel ih _ _ _ _ hg1 h
        · simp only [h1, if_false] at h
          cases h
          exact hg1
    · simp only [hmem, not_false_eq_true, if_true] at h
      cases h
      exact hg

/-- A grid returned by `eliminate` no longer has `digit` among the
candidates of `cell`. -/
theorem eliminateF_removes (fuel : ℕ) (g : Sudoku) (c : Cell) (d : ℕ) (g' : Sudoku)
    (h : eliminateF fuel (some g) c d = some g') : d ∉ g'.cells c := by
  cases fuel with
  | zero => cases h
  | succ fuel =>
    rw [eliminateF] at h
    by_cases hmem : d ∈ g.cells c
    · simp only [hmem, not_true_eq_false, if_false] at h
      by_cases h0 : ((g.cells c).erase d).card = 0
      · simp only [h0, if_true] at h; cases h
      · simp only [h0, if_false] at h
        by_cases h1 : ((g.cells c).erase d).card = 1
        · simp only [h1, if_true] at h
          intro hd
          have := elimFold_mono fuel (fun g c d g' h x => eliminateF_mono fuel g c d g' h x)
            _ _ _ _ h c hd
          simp only [Function.update_same] at this
          exact Finset.not_mem_erase d _ this
        · simp only [h1, if_false] at h
          cases h
          simp only [Function.update_same]
          exact Finset.not_mem_erase d _
    · simp only [hmem, not_false_eq_true, if_true] at h
      cases h
      exact hmem

theorem assignLoopF_mono (fuel : ℕ) :
    ∀ (ds : List ℕ) (g : Sudoku) (cell : Cell) (g' : Sudoku),
      assignLoopF fuel (some g) cell ds = some g' → ∀ x, g'.cells x ⊆ g.cells x := by
  intro ds
  induction ds with
  | nil => intro g cell g' h x; cases h; exact Finset.Subset.refl _
  | cons d ds ih =>
    intro g cell g' h x
    rcases h1 : eliminateF fuel (some g) cell d with _ | g1
    · rw [assignLoopF, List.foldl_cons, h1] at h
      rw [show (ds.foldl (fun og d => eliminateF fuel og cell d) none) =
        assignLoopF fuel none cell ds from rfl, assignLoopF_none] at h
      cases h
    · rw [assignLoopF, List.foldl_cons, h1] at h
      exact (ih g1 cell g' h x).trans (eliminateF_mono fuel g cell d g1 h1 x)

theorem assignLoopF_nonempty (fuel : ℕ) :
    ∀ (ds : List ℕ) (g : Sudoku) (cell : Cell) (g' : Sudoku), allNonempty g →
      assignLoopF fuel (some g) cell ds = some g' → allNonempty g' := by
  intro ds
  induction ds with
  | nil => intro g cell g' hg h; cases h; exact hg
  | cons d ds ih =>
    intro g cell g' hg h
    rcases h1 : eliminateF fuel (some g) cell d with _ | g1
    · rw [assignLoopF, List.foldl_cons, h1] at h
      rw [show (ds.foldl (fun og d => eliminateF fuel og cell d) none) =
        assignLoopF fuel none cell ds from rfl, assignLoopF_none] at h
      cases h
    · rw [assignLoopF, List.foldl_cons, h1] at h
      exact ih g1 cell g' (eliminateF_nonempty fuel g cell d g1 hg h1) h

/-- Every digit of the eliminated list is absent from the cell in a grid the
assign loop returns. -/
theorem assignLoopF_removes (fuel : ℕ) :
    ∀ (ds : List ℕ) (g : Sudoku) (cell : Cell) (g' : Sudoku),
      assignLoopF fuel (some g) cell ds = some g' → ∀ d ∈ ds, d ∉ g'.cells cell := by
  intro ds
  induction ds with
  | nil => intro g cell g' _ d hd; cases hd
  | cons d ds ih =>
    intro g cell g' h e he
    rcases h1 : eliminateF fuel (some g) cell d with _ | g1
    · rw [assignLoopF, List.foldl_cons, h1] at h
      rw [show (ds.foldl (fun og d => eliminateF fuel og cell d) none) =
        assignLoopF fuel none cell ds from rfl, assignLoopF_none] at h
      cases h
    · rw [assignLoopF, List.foldl_cons, h1] at h
      rcases List.mem_cons.mp he with rfl | he2
      · intro hcontra
        exact eliminateF_removes fuel g cell e g1 h1
          (assignLoopF_mono fuel ds g1 cell g' h cell hcontra)
      · exact ih g1 cell g' h e he2

/-- A one-cell solved grid used to instantiate theorems. -/
def witGrid : Sudoku :=
  { cells := fun _ => {1}, peers := fun _ => [], keys := [(1, 1)], n := 1 }

/-- A one-cell grid with an undecided cell used to instantiate theorems. -/
def wit2 : Sudoku :=
  { cells := fun c => if c = (1, 1) then ({1, 2} : Finset ℕ) else {1},
    peers := fun _ => [], keys := [(1, 1)], n := 1 }

/-- The grid `eliminate` produces from `wit2` by removing digit 2. -/
def wit2e : Sudoku :=
  { wit2 with cells := Function.update wit2.cells (1, 1) ((wit2.cells (1, 1)).erase 2) }

theorem wit2_nonempty : allNonempty wit2 := by
  intro c
  show (if c = (1, 1) then ({1, 2} : Finset ℕ) else {1}).Nonempty
  by_cases h : c = (1, 1)
  · rw [if_pos h]; exact Finset.insert_nonempty _ _
  · rw [if_neg h]; exact Finset.singleton_nonempty _

/-- C7: Monotonicity — whenever `eliminate` or `assign` returns a grid (not
the `False` contradiction marker), every cell's candidate set in the result
is a subset of its candidate set in the input grid, so candidate sets only
shrink across any sequence of such calls. -/
theorem claim_C7_monotonicity (fuel : ℕ) (g : Sudoku) (cell : Cell) (digit : ℕ) (g' : Sudoku) :
    (eliminateF fuel (some g) cell digit = some g' → ∀ c, g'.cells c ⊆ g.cells c)
    ∧ (assign fuel g cell digit = some g' → ∀ c, g'.cells c ⊆ g.cells c) := by
  constructor
  · intro h c
    exact eliminateF_mono fuel g cell digit g' h c
  · intro h c
    simp only [assign, Sudoku.copy] at h
    exact assignLoopF_mono fuel _ g cell g' h c

/-- Witness for C7 at a concrete grid, cell and digit. -/
theorem claim_C7_witness :
    eliminateF 2 (some witGrid) (1, 1) 2 = some witGrid
    ∧ assign 2 witGrid (1, 1) 1 = some witGrid
    ∧ witGrid.cells (1, 1) ⊆ witGrid.cells (1, 1) :=
  ⟨rfl, rfl, (claim_C7_monotonicity 2 witGrid (1, 1) 2 witGrid).1 rfl (1, 1)⟩

/-- C4: No empty candidate set ever persists — starting from a grid whose
cells are all non-empty, any grid (as opposed to the `False` marker)
returned by `eliminate` or `assign` again has every cell non-empty; a cell
reaching the empty set makes the operation return `False` instead. -/
theorem claim_C4_no_empty_persists (fuel : ℕ) (g g' : Sudoku) (cell : Cell) (digit : ℕ) :
    (allNonempty g → eliminateF fuel (some g) cell digit = some g' → allNonempty g')
    ∧ (allNonempty g → assign fuel g cell digit = some g' → allNonempty g') := by
  constructor
  · intro hg h
    exact eliminateF_nonempty fuel g cell digit g' hg h
  · intro hg h
    simp only [assign, Sudoku.copy] at h
    exact assignLoopF_nonempty fuel _ g cell g' hg h

/-- Witness for C4: a genuine elimination step on a concrete grid. -/
theorem claim_C4_witness :
    allNonempty wit2
    ∧ eliminateF 2 (some wit2) (1, 1) 2 = some wit2e
    ∧ allNonempty wit2e :=
  ⟨wit2_nonempty, rfl,
    (claim_C4_no_empty_persists 2 wit2 wit2e (1, 1) 2).1 wit2_nonempty rfl⟩

/-- C8: `eliminate` is idempotent — applying it twice with the same
arguments equals applying it once (also through the `False` marker), and
eliminating a digit that is not currently a candidate returns the grid
unchanged rather than failing. -/
theorem claim_C8_idempotent (fuel : ℕ) (g : Sudoku) (cell : Cell) (digit : ℕ) :
    (∀ og : Option Sudoku,
      eliminateF fuel (eliminateF fuel og cell digit) cell digit = eliminateF fuel og cell digit)
    ∧ (digit ∉ g.cells cell → eliminateF (fuel + 1) (some g) cell digit = some g) := by
  constructor
  · intro og
    rcases og with _ | g0
    · rw [eliminateF_none, eliminateF_none]
    · rcases r : eliminateF fuel (some g0) cell digit with _ | g'
      · rw [eliminateF_none]
      · have hd := eliminateF_removes fuel g0 cell digit g' r
        cases fuel with
        | zero => cases r
        | succ fuel =>
          rw [eliminateF]
          simp [hd]
  · intro h
    rw [eliminateF]
    simp [h]

/-- Witness for C8 at a concrete grid, cell and digit. -/
theorem claim_C8_witness :
    (2 ∉ witGrid.cells (1, 1))
    ∧ eliminateF 3 (some witGrid) (1, 1) 2 = some witGrid :=
  ⟨by decide, (claim_C8_idempotent 2 witGrid (1, 1) 2).2 (by decide)⟩

theorem setAsc_empty : setAsc (∅ : Finset ℕ) = [] := rfl

/-- C10: re-assigning the digit a cell is already forced to succeeds —
`assign` on a cell whose candidate set is exactly `{digit}` returns a grid
(not `False`) whose candidate sets all equal the input's. -/
theorem claim_C10_reassign_forced (fuel : ℕ) (g : Sudoku) (cell : Cell) (digit : ℕ)
    (h : g.cells cell = {digit}) :
    ∃ g', assign fuel g cell digit = some g' ∧ ∀ c, g'.cells c = g.cells c := by
  refine ⟨g, ?_, fun c => rfl⟩
  simp only [assign, Sudoku.copy]
  rw [h, Finset.sdiff_self, setAsc_empty]
  rfl

/-- Witness for C10 at a concrete forced cell. -/
theorem claim_C10_witness :
    witGrid.cells (1, 1) = {1}
    ∧ ∃ g', assign 3 witGrid (1, 1) 1 = some g' ∧ ∀ c, g'.cells c = witGrid.cells c :=
  ⟨by decide, claim_C10_reassign_forced 3 witGrid (1, 1) 1 (by decide)⟩

/-- Core of C5: from a valid grid, assigning a digit that is not currently a
candidate of the cell yields the `False` marker. -/
theorem assign_none_of_not_mem (fuel : ℕ) (g : Sudoku) (cell : Cell) (digit : ℕ)
    (hg : allNonempty g) (hd : digit ∉ g.cells cell) :
    assign fuel g cell digit = none := by
  rcases h : assign fuel g cell digit with _ | g'
  · rfl
  · exfalso
    simp only [assign, Sudoku.copy] at h
    have hsub := assignLoopF_mono fuel _ g cell g' h cell
    have hrem := assignLoopF_removes fuel _ g cell g' h
    have hne := assignLoopF_nonempty fuel _ g cell g' hg h
    obtain ⟨x, hx⟩ := hne cell
    have hxg : x ∈ g.cells cell := hsub hx
    have hxd : x ∈ setAsc (g.cells cell \ {digit}) := by
      rw [setAsc_mem, Finset.mem_sdiff, Finset.mem_singleton]
      exact ⟨hxg, fun hxeq => hd (hxeq ▸ hxg)⟩
    exact hrem x hxd hx

/-- C5: from a valid grid, `assign` returns the `False` contradiction
marker — an ordinary value, not an exception — when the digit is not a
candidate of the cell, when the digit lies outside [1, n²] (given the range
invariant), and when the cell is a singleton holding a different digit. -/
theorem claim_C5_assign_contradiction (fuel : ℕ) (g : Sudoku) (cell : Cell) (digit : ℕ)
    (hg : allNonempty g) :
    (digit ∉ g.cells cell → assignPy fuel (some g) cell digit = PyOut.ok none)
    ∧ (inRange g → digit < 1 ∨ g.n ^ 2 < digit →
        assignPy fuel (some g) cell digit = PyOut.ok none)
    ∧ (∀ e, g.cells cell = {e} → e ≠ digit →
        assignPy fuel (some g) cell digit = PyOut.ok none) := by
  refine ⟨fun hd => ?_, fun hr hout => ?_, fun e he hne => ?_⟩
  · simp only [assignPy, assign_none_of_not_mem fuel g cell digit hg hd]
  · have hd : digit ∉ g.cells cell := by
      intro hmem
      have := hr cell hmem
      rw [Finset.mem_Icc] at this
      rcases hout with hlt | hgt
      · exact absurd this.1 (by omega)
      · exact absurd this.2 (by omega)
    simp only [assignPy, assign_none_of_not_mem fuel g cell digit hg hd]
  · have hd : digit ∉ g.cells cell := by
      rw [he, Finset.mem_singleton]
      intro hmem
      exact hne hmem.symm
    simp only [assignPy, assign_none_of_not_mem fuel g cell digit hg hd]

theorem witGrid_nonempty : allNonempty witGrid := by
  intro c
  show ({1} : Finset ℕ).Nonempty
  decide

theorem witGrid_inRange : inRange witGrid := by
  intro c
  show ({1} : Finset ℕ) ⊆ Finset.Icc 1 (1 ^ 2)
  decide

/-- Witness for C5: all three failure cases at a concrete grid and digit. -/
theorem claim_C5_witness :
    allNonempty witGrid ∧ inRange witGrid
    ∧ (2 ∉ witGrid.cells (1, 1)) ∧ witGrid.n ^ 2 < 2
    ∧ witGrid.cells (1, 1) = {1} ∧ (1 : ℕ) ≠ 2
    ∧ assignPy 5 (some witGrid) (1, 1) 2 = PyOut.ok none :=
  ⟨witGrid_nonempty, witGrid_inRange, by decide, by decide, by decide, by decide,
    (claim_C5_assign_contradiction 5 witGrid (1, 1) 2 witGrid_nonempty).1 (by decide)⟩

/-- The choice loop of `solve_sudoku` returns the first non-`False`
recursive outcome: it is `List.findSome?` over the recursive calls. -/
theorem tryChoicesF_eq_findSome (nc : Sudoku → Cell) (oc : Sudoku → Cell → List ℕ)
    (fuel : ℕ) (g : Sudoku) (idx : Cell) :
    ∀ vs : List ℕ, tryChoicesF nc oc fuel g idx vs =
      vs.findSome? fun v => solve_sudoku nc oc fuel (assign (totalCount g + 1) g idx v) := by
  intro vs
  induction vs with
  | nil => rw [tryChoicesF, List.findSome?_nil]
  | cons v vs ih =>
    rw [tryChoicesF, List.findSome?_cons]
    cases solve_sudoku nc oc fuel (assign (totalCount g + 1) g idx v) with
    | none => exact ih
    | some out => rfl

/-- C6: structure of the backtracking search — on a solved grid
`solve_sudoku` returns that same grid; otherwise it selects a cell with the
selection strategy, obtains the ordered trial values, assigns each in
order, recurses, returns the first non-`False` recursive result, and
returns `False` exactly when every trial fails. -/
theorem claim_C6_solver_structure (nc : Sudoku → Cell) (oc : Sudoku → Cell → List ℕ)
    (fuel : ℕ) (g : Sudoku) :
    (solved g = true → solve_sudoku nc oc (fuel + 1) (some g) = some g)
    ∧ (solved g = false → solve_sudoku nc oc (fuel + 1) (some g) =
        (oc g (nc g)).findSome? fun v =>
          solve_sudoku nc oc fuel (assign (totalCount g + 1) g (nc g) v))
    ∧ (solved g = false → (solve_sudoku nc oc (fuel + 1) (some g) = none ↔
        ∀ v ∈ oc g (nc g),
          solve_sudoku nc oc fuel (assign (totalCount g + 1) g (nc g) v) = none)) := by
  refine ⟨fun hs => ?_, fun hs => ?_, fun hs => ?_⟩
  · rw [solve_sudoku]
    simp [hs]
  · rw [solve_sudoku]
    simp [hs, tryChoicesF_eq_findSome]
  · rw [solve_sudoku]
    simp [hs, tryChoicesF_eq_findSome, List.findSome?_eq_none_iff]

/-- Witness for C6: a solved one-cell grid is returned unchanged. -/
theorem claim_C6_witness :
    solved witGrid = true
    ∧ solve_sudoku (fun _ => (1, 1)) (fun _ _ => []) 1 (some witGrid) = some witGrid :=
  ⟨by decide,
    (claim_C6_solver_structure (fun _ => (1, 1)) (fun _ _ => []) 0 witGrid).1 (by decide)⟩

/-- C9: selection filtering — when some key has more than one candidate,
`most_constrained` (resp. `least_constrained`) returns a key with more than
one candidate whose candidate count is minimal (resp. maximal) among such
keys; when every key is a singleton both raise (modelled as `none`, the
`ValueError` from `min`/`max` on an empty sequence). -/
theorem claim_C9_selection (g : Sudoku) :
    ((∃ k ∈ g.keys, 1 < (g.cells k).card) →
      ∃ k₀, most_constrained g = some k₀ ∧ k₀ ∈ g.keys ∧ 1 < (g.cells k₀).card ∧
        ∀ k ∈ g.keys, 1 < (g.cells k).card → (g.cells k₀).card ≤ (g.cells k).card)
    ∧ ((∃ k ∈ g.keys, 1 < (g.cells k).card) →
      ∃ k₁, least_constrained g = some k₁ ∧ k₁ ∈ g.keys ∧ 1 < (g.cells k₁).card ∧
        ∀ k ∈ g.keys, 1 < (g.cells k).card → (g.cells k).card ≤ (g.cells k₁).card)
    ∧ ((∀ k ∈ g.keys, (g.cells k).card = 1) →
      most_constrained g = none ∧ least_constrained g = none) := by
  refine ⟨fun hex => ?_, fun hex => ?_, fun hall => ?_⟩
  · obtain ⟨k, hk, hcard⟩ := hex
    have hkmem : k ∈ g.keys.filter fun k => 1 < (g.cells k).card :=
      List.mem_filter.mpr ⟨hk, by simpa using hcard⟩
    rcases hmin : ((g.keys.filter fun k => 1 < (g.cells k).card).map
        fun k => (g.cells k).card).min? with _ | m
    · rw [List.min?_eq_none_iff, List.map_eq_nil_iff] at hmin
      rw [hmin] at hkmem
      cases hkmem
    · obtain ⟨hmmem, hmle⟩ := List.min?_eq_some_iff'.mp hmin
      obtain ⟨k1, hk1mem, hk1m⟩ := List.mem_map.mp hmmem
      have hfs : ((g.keys.filter fun k => 1 < (g.cells k).card).find?
          fun k => (g.cells k).card == m).isSome := by
        rw [List.find?_isSome]
        exact ⟨k1, hk1mem, by simpa using hk1m⟩
      obtain ⟨k₀, hfind⟩ := Option.isSome_iff_exists.mp hfs
      have hk₀p : (g.cells k₀).card = m := by simpa using List.find?_some hfind
      have hk₀mem := List.mem_of_find?_eq_some hfind
      rw [List.mem_filter] at hk₀mem
      refine ⟨k₀, ?_, hk₀mem.1, by simpa using hk₀mem.2, fun c hc hc2 => ?_⟩
      · simp only [most_constrained]
        rw [hmin]
        exact hfind
      · rw [hk₀p]
        exact hmle _ (List.mem_map.mpr
          ⟨c, List.mem_filter.mpr ⟨hc, by simpa using hc2⟩, rfl⟩)
  · obtain ⟨k, hk, hcard⟩ := hex
    have hkmem : k ∈ g.keys.filter fun k => 1 < (g.cells k).card :=
      List.mem_filter.mpr ⟨hk, by simpa using hcard⟩
    rcases hmax : ((g.keys.filter fun k => 1 < (g.cells k).card).map
        fun k => (g.cells k).card).max? with _ | m
    · rw [List.max?_eq_none_iff, List.map_eq_nil_iff] at hmax
      rw [hmax] at hkmem
      cases hkmem
    · obtain ⟨hmmem, hmle⟩ := List.max?_eq_some_iff'.mp hmax
      obtain ⟨k1, hk1mem, hk1m⟩ := List.mem_map.mp hmmem
      have hfs : ((g.keys.filter fun k => 1 < (g.cells k).card).find?
          fun k => (g.cells k).card == m).isSome := by
        rw [List.find?_isSome]
        exact ⟨k1, hk1mem, by simpa using hk1m⟩
      obtain ⟨k₁, hfind⟩ := Option.isSome_iff_exists.mp hfs
      have hk₁p : (g.cells k₁).card = m := by simpa using List.find?_some hfind
      have hk₁mem := List.mem_of_find?_eq_some hfind
      rw [List.mem_filter] at hk₁mem
      refine ⟨k₁, ?_, hk₁mem.1, by simpa using hk₁mem.2, fun c hc hc2 => ?_⟩
      · simp only [least_constrained]
        rw [hmax]
        exact hfind
      · rw [hk₁p]
        exact hmle _ (List.mem_map.mpr
          ⟨c, List.mem_filter.mpr ⟨hc, by simpa using hc2⟩, rfl⟩)
  · have hnil : (g.keys.filter fun k => 1 < (g.cells k).card) = [] := by
      rw [List.filter_eq_nil_iff]
      intro k hk
      simp [hall k hk]
    constructor
    · simp only [most_constrained, hnil]
      rfl
    · simp only [least_constrained, hnil]
      rfl

/-- Witness for C9: a grid with an undecided cell, and a solved grid. -/
theorem claim_C9_witness :
    ((1, 1) ∈ wit2.keys ∧ 1 < (wit2.cells (1, 1)).card)
    ∧ (∃ k₀, most_constrained wit2 = some k₀ ∧ k₀ ∈ wit2.keys ∧ 1 < (wit2.cells k₀).card ∧
        ∀ k ∈ wit2.keys, 1 < (wit2.cells k).card →
          (wit2.cells k₀).card ≤ (wit2.cells k).card)
    ∧ (∀ k ∈ witGrid.keys, (witGrid.cells k).card = 1)
    ∧ most_constrained witGrid = none ∧ least_constrained witGrid = none := by
  have h1 : (1, 1) ∈ wit2.keys ∧ 1 < (wit2.cells (1, 1)).card := by
    constructor
    · show (1, 1) ∈ [(1, 1)]
      exact List.mem_singleton.mpr rfl
    · show 1 < (({1, 2} : Finset ℕ)).card
      decide
  have h2 : ∀ k ∈ witGrid.keys, (witGrid.cells k).card = 1 := by
    intro k _
    show ({1} : Finset ℕ).card = 1
    decide
  exact ⟨h1, (claim_C9_selection wit2).1 ⟨(1, 1), h1.1, h1.2⟩, h2,
    (claim_C9_selection witGrid).2.2 h2⟩

theorem writeCell_mem_noteq (σ : Store) (a : ℕ) (cell : Cell) (s : Finset ℕ)
    (b : ℕ) (h : b ≠ a) : (writeCell σ a cell s).mem b = σ.mem b := by
  simp [writeCell, Function.update_noteq h]

/-- Folding a step that writes only through the threaded grid reference
preserves the reference (or turns it into `False`) and leaves every other
address untouched. -/
theorem foldS_frame {α : Type} (step : Store × Option ℕ → α → Store × Option ℕ)
    (hstep : ∀ (σ : Store) (oa : Option ℕ) (x : α),
      ((step (σ, oa) x).2 = oa ∨ (step (σ, oa) x).2 = none)
      ∧ ∀ b, (∀ a, oa = some a → b ≠ a) → (step (σ, oa) x).1.mem b = σ.mem b) :
    ∀ (L : List α) (σ : Store) (oa : Option ℕ),
      ((L.foldl step (σ, oa)).2 = oa ∨ (L.foldl step (σ, oa)).2 = none)
      ∧ ∀ b, (∀ a, oa = some a → b ≠ a) → (L.foldl step (σ, oa)).1.mem b = σ.mem b := by
  intro L
  induction L with
  | nil => intro σ oa; exact ⟨Or.inl rfl, fun b _ => rfl⟩
  | cons x L ih =>
    intro σ oa
    obtain ⟨ho1, hmem1⟩ := hstep σ oa x
    rcases hr : step (σ, oa) x with ⟨σ1, o1⟩
    rw [hr] at ho1 hmem1
    simp only at ho1 hmem1
    rw [List.foldl_cons, hr]
    obtain ⟨ho2, hmem2⟩ := ih σ1 o1
    constructor
    · rcases ho2 with h2 | h2
      · rcases ho1 with h1 | h1
        · exact Or.inl (h2.trans h1)
        · exact Or.inr (h2.trans h1)
      · exact Or.inr h2
    · intro b hb
      have hb1 : ∀ a, o1 = some a → b ≠ a := by
        intro a ha
        rcases ho1 with h1 | h1
        · exact hb a (h1 ▸ ha)
        · rw [h1] at ha; cases ha
      rw [hmem2 b hb1, hmem1 b hb]

/-- `eliminate` at the object level writes only through the grid reference
it is handed, and the reference it returns is that same reference or
`False`. -/
theorem eliminateS_frame (ps : Cell → List Cell) :
    ∀ (fuel : ℕ) (σ : Store) (oa : Option ℕ) (cell : Cell) (digit : ℕ),
      ((eliminateS ps fuel (σ, oa) cell digit).2 = oa
        ∨ (eliminateS ps fuel (σ, oa) cell digit).2 = none)
      ∧ ∀ b, (∀ a, oa = some a → b ≠ a) →
        (eliminateS ps fuel (σ, oa) cell digit).1.mem b = σ.mem b := by
  intro fuel
  induction fuel with
  | zero => intro σ oa cell digit; exact ⟨Or.inr rfl, fun b _ => rfl⟩
  | succ fuel ih =>
    intro σ oa cell digit
    rcases oa with _ | a
    · exact ⟨Or.inl rfl, fun b _ => rfl⟩
    · by_cases hmem : digit ∈ σ.mem a cell
      · by_cases h0 : ((σ.mem a cell).erase digit).card = 0
        · have heq : eliminateS ps (fuel + 1) (σ, some a) cell digit =
              (writeCell σ a cell ((σ.mem a cell).erase digit), none) := by
            simp only [eliminateS]
            rw [if_neg (not_not_intro hmem), if_pos h0]
          rw [heq]
          exact ⟨Or.inr rfl, fun b hb =>
            writeCell_mem_noteq σ a cell _ b (hb a rfl)⟩
        · by_cases h1 : ((σ.mem a cell).erase digit).card = 1
          · have heq : eliminateS ps (fuel + 1) (σ, some a) cell digit =
                (ps cell).foldl
                  (fun r p => eliminateS ps fuel r p (theElem ((σ.mem a cell).erase digit)))
                  (writeCell σ a cell ((σ.mem a cell).erase digit), some a) := by
              simp only [eliminateS]
              rw [if_neg (not_not_intro hmem), if_neg h0, if_pos h1]
            rw [heq]
            obtain ⟨ho, hmemf⟩ := foldS_frame
              (fun r p => eliminateS ps fuel r p (theElem ((σ.mem a cell).erase digit)))
              (fun σ' oa' p => ih σ' oa' p _)
              (ps cell) (writeCell σ a cell ((σ.mem a cell).erase digit)) (some a)
            refine ⟨ho, fun b hb => ?_⟩
            rw [hmemf b hb]
            exact writeCell_mem_noteq σ a cell _ b (hb a rfl)
          · have heq : eliminateS ps (fuel + 1) (σ, some a) cell digit =
                (writeCell σ a cell ((σ.mem a cell).erase digit), some a) := by
              simp only [eliminateS]
              rw [if_neg (not_not_intro hmem), if_neg h0, if_neg h1]
            rw [heq]
            exact ⟨Or.inl rfl, fun b hb =>
              writeCell_mem_noteq σ a cell _ b (hb a rfl)⟩
      · have heq : eliminateS ps (fuel + 1) (σ, some a) cell digit = (σ, some a) := by
          simp only [eliminateS]
          rw [if_pos hmem]
        rw [heq]
        exact ⟨Or.inl rfl, fun b _ => rfl⟩

/-- C3: failed branches leave no trace on ancestors — `assign` allocates a
fresh grid object for its copy and every elimination writes only through
that fresh reference, so whatever `assign` returns (a grid or the `False`
contradiction marker), the contents of every previously allocated grid
object — in particular the caller's grid at address `a` — are unchanged. -/
theorem claim_C3_no_trace_on_ancestors (ps : Cell → List Cell) (fuel : ℕ) (σ : Store)
    (a : ℕ) (cell : Cell) (digit : ℕ) (b : ℕ) (hb : b < σ.next) :
    ((assignS ps fuel σ a cell digit).1).mem b = σ.mem b := by
  simp only [assignS, assignLoopS]
  have hfold := (foldS_frame
    (fun r d => eliminateS ps fuel r cell d)
    (fun σ' oa' d => eliminateS_frame ps fuel σ' oa' cell d)
    (setAsc ((Function.update σ.mem σ.next (σ.mem a) σ.next cell) \ {digit}))
    { next := σ.next + 1, mem := Function.update σ.mem σ.next (σ.mem a) }
    (some σ.next)).2 b
    (fun a' ha' => by
      injection ha' with h'
      omega)
  rw [hfold]
  exact Function.update_noteq (by omega) _ _

/-- A one-object store used to instantiate the frame theorem. -/
def witStore : Store := { next := 1, mem := fun _ _ => {1} }

/-- Witness for C3 at a concrete store, address, cell and digit. -/
theorem claim_C3_witness :
    0 < witStore.next
    ∧ (assignS (fun _ => []) 3 witStore 0 (1, 1) 1).1.mem 0 = witStore.mem 0 :=
  ⟨by decide, claim_C3_no_trace_on_ancestors (fun _ => []) 3 witStore 0 (1, 1) 1 0 (by decide)⟩

/-- C1: how each operation treats the `False` contradiction marker —
`eliminate` and `solve_sudoku` return it unchanged (their `grid == False`
guards are their first statements), but `assign` raises `AttributeError`
(`PyOut.exn`): its guard sits at line 118, after `grid.copy()` at line 110
has already been attempted on the Python value `False`. -/
theorem claim_C1_false_absorption (fuel : ℕ) (cell : Cell) (digit : ℕ)
    (nc : Sudoku → Cell) (oc : Sudoku → Cell → List ℕ) :
    eliminateF fuel none cell digit = none
    ∧ solve_sudoku nc oc fuel none = none
    ∧ assignPy fuel none cell digit = PyOut.exn := by
  refine ⟨eliminateF_none fuel cell digit, ?_, rfl⟩
  cases fuel <;> rw [solve_sudoku]

/-- A 4 x 4 puzzle whose first row places the digit 1 twice and then has a
third prefilled cell after the conflict. -/
def conflictRows : List (List (Option ℕ)) :=
  [[some 1, some 1, some 2, none],
   [none, none, none, none],
   [none, none, none, none],
   [none, none, none, none]]

/-- C2: `parse_grid` on a grid whose row-conflict is *not* at the last
prefilled cell raises `AttributeError` instead of returning `False`: the
conflicting second assignment returns `False`, and the loop then calls
`assign(False, (1, 3), 2)`, which crashes at `grid.copy()`. -/
theorem claim_C2_parse_grid_raises : parse_grid conflictRows = PyOut.exn := by
  have hsqrt : Nat.sqrt 4 = 2 := by norm_num
  have hlen : conflictRows.length = 4 := rfl
  simp only [parse_grid, hlen, hsqrt]
  rfl
